import Mathlib

/-!
Verification development for the nova image-service client wrapper and the
NetApp volume drivers (`nova/volume/netapp.py`).

Text (names, paths, projects) is modelled as `List Char` so that all string
operations are plain computable list functions.
-/

set_option maxRecDepth 10000

/-- Text values (names, paths, reasons) as lists of characters. -/
abbrev Str := List Char

/-- The characters of a string literal. -/
def chars (s : String) : Str := s.data

/-- Python `s.startswith(pre)`. -/
def startsWithS (s pre : Str) : Bool := List.isPrefixOf pre s

/-- Python `s.endswith(suffix)`. -/
def endsWithS (s suffix : Str) : Bool := List.isSuffixOf suffix s

/-! ## Remote client wrapper (retry/failover)

Modelled from the spec: the implementation `GlanceClientWrapper.call` in
`nova/image/glance.py` is not under `src/` (only its tests are).  Per the spec:
retry budget is a configured integer `N`; total attempts = `N + 1`; a
connection-level failure consumes one retry; after exhausting attempts the
call surfaces `ConnectionFailed` carrying the last failure's reason;
non-connection failures propagate immediately without retry.  The behaviour of
the underlying client on each attempt is an oracle `Nat → AttemptOutcome`.
-/

/-- Outcome of one attempt against the underlying client. -/
inductive AttemptOutcome
  | success (v : Nat)
  | connFail (reason : Str)
  | otherFail (e : Str)
deriving DecidableEq

/-- Result of a wrapped call, recording how many attempts were made. -/
inductive CallResult
  | ok (v : Nat) (attempts : Nat)
  | connectionFailed (reason : Str) (attempts : Nat)
  | err (e : Str) (attempts : Nat)
deriving DecidableEq

/-- Modelled from the spec: the retry loop of the client wrapper.
`retriesLeft` is the remaining retry budget, `attempt` the 0-based index of
the attempt about to be made. -/
def glanceCallAux (o : Nat → AttemptOutcome) : Nat → Nat → CallResult
  | retriesLeft, attempt =>
    match o attempt with
    | .success v => .ok v (attempt + 1)
    | .otherFail e => .err e (attempt + 1)
    | .connFail r =>
      match retriesLeft with
      | 0 => .connectionFailed r (attempt + 1)
      | n + 1 => glanceCallAux o n (attempt + 1)

/-- Modelled from the spec: a call through the wrapper with retry budget
`numRetries`. -/
def glanceCall (o : Nat → AttemptOutcome) (numRetries : Nat) : CallResult :=
  glanceCallAux o numRetries 0

/-- Number of attempts recorded in a call result. -/
def attemptsOf : CallResult → Nat
  | .ok _ a => a
  | .connectionFailed _ a => a
  | .err _ a => a

/-! ## Metadata codec

Modelled from the spec: the implementation `_convert_to_string` /
`_convert_from_string` in `nova/image/glance.py` is not under `src/` (only its
tests are).  Per the spec: `encode` serializes, for each recognized key
(`mappings`, `block_device_mapping`) whose value is a sequence of flat
scalar-valued records, that value to a canonical deterministic textual form
(stable key ordering, here the record's own key order) and replaces it in
place; all other keys pass through unchanged.  `decode` parses recognized
string values back; unrecognized or already-structured values pass through
unchanged.  The textual form is a JSON-style list of objects with
backslash-escaping of `\` and of double quotes inside scalars.
-/

/-- A flat scalar-valued record: keys paired with scalar (string) values. -/
abbrev FlatRecord := List (Str × Str)

/-- Escape one character of a scalar: backslash and double quote are
backslash-escaped. -/
def escChar (c : Char) : Str :=
  if c = '\\' ∨ c = '"' then ['\\', c] else [c]

/-- Escape a scalar. -/
def escapeS : Str → Str
  | [] => []
  | c :: cs => escChar c ++ escapeS cs

/-- Modelled from the spec: serialize one scalar as a quoted string. -/
def serializeScalar (s : Str) : Str := '"' :: (escapeS s ++ ['"'])

/-- Modelled from the spec: serialize one key/value entry of a record. -/
def serializeEntry (p : Str × Str) : Str :=
  serializeScalar p.1 ++ ':' :: ' ' :: serializeScalar p.2

/-- Comma-separated continuation of a record's entries. -/
def serializeEntriesRest : FlatRecord → Str
  | [] => []
  | p :: ps => ',' :: ' ' :: (serializeEntry p ++ serializeEntriesRest ps)

/-- Modelled from the spec: serialize one record as a braced object, keys in
the record's own (stable) order. -/
def serializeRecord (r : FlatRecord) : Str :=
  '{' :: ((match r with
           | [] => []
           | p :: ps => serializeEntry p ++ serializeEntriesRest ps) ++ ['}'])

/-- Comma-separated continuation of a record list. -/
def serializeRecordsRest : List FlatRecord → Str
  | [] => []
  | r :: rs => ',' :: ' ' :: (serializeRecord r ++ serializeRecordsRest rs)

/-- Modelled from the spec: serialize a sequence of records as a bracketed
list — the canonical deterministic textual form. -/
def serializeRecords (rs : List FlatRecord) : Str :=
  '[' :: ((match rs with
           | [] => []
           | r :: rest => serializeRecord r ++ serializeRecordsRest rest) ++ [']'])

/-- Parse the body of a quoted scalar (after the opening quote), undoing the
escaping; returns the scalar and the remaining input. -/
def parseScalarBody : Str → Option (Str × Str)
  | [] => none
  | c :: rest =>
    if c = '"' then some ([], rest)
    else if c = '\\' then
      match rest with
      | [] => none
      | d :: rest2 =>
        match parseScalarBody rest2 with
        | none => none
        | some (s, r) => some (d :: s, r)
    else
      match parseScalarBody rest with
      | none => none
      | some (s, r) => some (c :: s, r)

/-- Parse a quoted scalar. -/
def parseScalar : Str → Option (Str × Str)
  | '"' :: rest => parseScalarBody rest
  | _ => none

/-- Parse one key/value entry of a record. -/
def parseEntry (l : Str) : Option ((Str × Str) × Str) :=
  match parseScalar l with
  | none => none
  | some (k, l1) =>
    match l1 with
    | ':' :: ' ' :: l2 =>
      match parseScalar l2 with
      | none => none
      | some (v, l3) => some ((k, v), l3)
    | _ => none

/-- Parse the remaining entries of a record up to the closing brace.  `fuel`
bounds the number of further entries. -/
def parseEntriesRest : Nat → Str → Option (FlatRecord × Str)
  | _, [] => none
  | fuel, c :: l1 =>
    if c = '}' then some ([], l1)
    else
      match fuel with
      | 0 => none
      | fuel' + 1 =>
        if c = ',' then
          match l1 with
          | ' ' :: l2 =>
            match parseEntry l2 with
            | none => none
            | some (p, l3) =>
              match parseEntriesRest fuel' l3 with
              | none => none
              | some (ps, r) => some (p :: ps, r)
          | _ => none
        else none

/-- Parse one braced record. -/
def parseRecord (fuel : Nat) (l : Str) : Option (FlatRecord × Str) :=
  match l with
  | '{' :: l1 =>
    (match l1 with
     | [] => none
     | c :: l2 =>
       if c = '}' then some ([], l2)
       else
         match parseEntry (c :: l2) with
         | none => none
         | some (p, l3) =>
           match parseEntriesRest fuel l3 with
           | none => none
           | some (ps, r) => some (p :: ps, r))
  | _ => none

/-- Parse the remaining records of a list up to the closing bracket.  `rfuel`
bounds the entries inside each record, `fuel` the number of further
records. -/
def parseRecordsRest (rfuel : Nat) : Nat → Str → Option (List FlatRecord × Str)
  | _, [] => none
  | fuel, c :: l1 =>
    if c = ']' then some ([], l1)
    else
      match fuel with
      | 0 => none
      | fuel' + 1 =>
        if c = ',' then
          match l1 with
          | ' ' :: l2 =>
            match parseRecord rfuel l2 with
            | none => none
            | some (r, l3) =>
              match parseRecordsRest rfuel fuel' l3 with
              | none => none
              | some (rs, rest) => some (r :: rs, rest)
          | _ => none
        else none

/-- Parse a bracketed record list. -/
def parseRecordsAux (fuel : Nat) (l : Str) : Option (List FlatRecord × Str) :=
  match l with
  | '[' :: l1 =>
    (match l1 with
     | [] => none
     | c :: l2 =>
       if c = ']' then some ([], l2)
       else
         match parseRecord fuel (c :: l2) with
         | none => none
         | some (r, l3) =>
           match parseRecordsRest fuel fuel l3 with
           | none => none
           | some (rs, rest) => some (r :: rs, rest))
  | _ => none

/-- Modelled from the spec: parse the canonical textual form back into a
sequence of records; fails on anything else or on trailing input. -/
def parseRecords (l : Str) : Option (List FlatRecord) :=
  match parseRecordsAux l.length l with
  | some (rs, []) => some rs
  | _ => none

/-- A property value: either a scalar string or a sequence of flat
scalar-valued records. -/
inductive PropValue
  | str (s : Str)
  | records (rs : List FlatRecord)
deriving DecidableEq

/-- A properties mapping. -/
abbrev Props := List (Str × PropValue)

/-- The recognized nested keys. -/
def recognizedKey (k : Str) : Bool :=
  decide (k = chars "mappings" ∨ k = chars "block_device_mapping")

/-- Modelled from the spec: `encode` on one key/value — a recognized key whose
value is a sequence of records is replaced by its serialization; everything
else passes through. -/
def encodeVal (k : Str) (v : PropValue) : PropValue :=
  if recognizedKey k then
    match v with
    | .records rs => .str (serializeRecords rs)
    | .str s => .str s
  else v

/-- Modelled from the spec: `encode` over a whole properties mapping. -/
def encodeProps (ps : Props) : Props :=
  ps.map (fun p => (p.1, encodeVal p.1 p.2))

/-- Modelled from the spec: `decode` on one key/value — a recognized key whose
value is a string that parses as a record list is parsed back; unrecognized or
already-structured values pass through unchanged. -/
def decodeVal (k : Str) (v : PropValue) : PropValue :=
  if recognizedKey k then
    match v with
    | .str s =>
      match parseRecords s with
      | some rs => .records rs
      | none => .str s
    | .records rs => .records rs
  else v

/-- Modelled from the spec: `decode` over a whole properties mapping. -/
def decodeProps (ps : Props) : Props :=
  ps.map (fun p => (p.1, decodeVal p.1 p.2))


/-! ## NetApp 7-mode driver model (`nova/volume/netapp.py`, `NetAppISCSIDriver`)

Embeds the local data model and cache logic of the driver: discovered
datasets and LUNs, the `lun_table` fast index, lookup, discovery filtering,
dataset naming, and the edit-lock transactions.  Remote behaviour (whether a
remote call raises) is passed in explicitly.
-/

/-- Model of `DfmDataset`: id, name, owning project and volume-type tag (`None`
allowed). -/
structure DfmDatasetM where
  id : Nat
  name : Str
  project : Str
  dstype : Option Str
deriving DecidableEq

/-- Model of `DfmLun`: owning dataset, full LUN path and id. -/
structure DfmLunM where
  dataset : DfmDatasetM
  lunpath : Str
  id : Nat
deriving DecidableEq

/-- Local mutable state of `NetAppISCSIDriver`: `discovered_luns` and the
`lun_table` dict (modelled as an association list; insertion prepends, so the
newest binding shadows). -/
structure DriverState where
  discoveredLuns : List DfmLunM
  lunTable : List (Str × DfmLunM)
deriving DecidableEq

/-- Dict lookup `name in self.lun_table` / `self.lun_table[name]`. -/
def tableFind (t : List (Str × DfmLunM)) (k : Str) : Option DfmLunM :=
  match t.find? (fun p => decide (p.1 = k)) with
  | some p => some p.2
  | none => none

/-- The linear scan of `_lookup_lun_for_volume`: skip LUNs of another
project, return the first whose path ends with `'/' + name`. -/
def scanLuns (luns : List DfmLunM) (name project : Str) : Option DfmLunM :=
  match luns with
  | [] => none
  | lun :: rest =>
    if lun.dataset.project ≠ project then scanLuns rest name project
    else if endsWithS lun.lunpath ('/' :: name) then some lun
    else scanLuns rest name project

/-- Result of a lookup: the LUN found (`none` models the raised
`NovaException` / `NotFound`), the updated driver state, and how many linear
scans were performed. -/
structure LookupResult where
  lunFound : Option DfmLunM
  state : DriverState
  scans : Nat
deriving DecidableEq

/-- Model of `NetAppISCSIDriver._lookup_lun_for_volume`: fast index first; on a miss
one linear scan; a scan hit populates `lun_table`; a scan miss raises. -/
def lookupLunForVolume (s : DriverState) (name project : Str) : LookupResult :=
  match tableFind s.lunTable name with
  | some lun => ⟨some lun, s, 0⟩
  | none =>
    match scanLuns s.discoveredLuns name project with
    | some lun => ⟨some lun, { s with lunTable := (name, lun) :: s.lunTable }, 1⟩
    | none => ⟨none, s, 1⟩

/-- One `DfmMetadataField` of a remote dataset. -/
structure MetaFieldM where
  fieldName : Str
  fieldValue : Str
deriving DecidableEq

/-- A remote dataset as enumerated by `DatasetListInfoIterNext`:
`DatasetMetadata` is `none` when the attribute is absent. -/
structure RemoteDatasetM where
  datasetId : Nat
  datasetName : Str
  datasetMetadata : Option (List MetaFieldM)
deriving DecidableEq

/-- The metadata loop of `_discover_luns`: the last `OpenStackProject` /
`OpenStackVolType` field wins. -/
def extractTags (fields : List MetaFieldM) : Option Str × Option Str :=
  fields.foldl
    (fun acc f =>
      if f.fieldName = chars "OpenStackProject" then (some f.fieldValue, acc.2)
      else if f.fieldName = chars "OpenStackVolType" then (acc.1, some f.fieldValue)
      else acc)
    (none, none)

/-- Python truthiness of the extracted project: `None` and the empty string
are falsy. -/
def truthyOpt : Option Str → Bool
  | none => false
  | some s => decide (s ≠ [])

/-- The per-dataset filter of `_discover_luns`: name must start with
`OpenStack_`, metadata must be present and non-empty, and the extracted
project must be truthy. -/
def datasetIncluded (d : RemoteDatasetM) : Bool :=
  startsWithS d.datasetName (chars "OpenStack_")
    && (match d.datasetMetadata with
        | none => false
        | some fields =>
          if fields = [] then false
          else truthyOpt (extractTags fields).1)

/-- The `DfmDataset` record built for an included remote dataset. -/
def toDiscovered (d : RemoteDatasetM) : DfmDatasetM :=
  let tags := extractTags (d.datasetMetadata.getD [])
  ⟨d.datasetId, d.datasetName, tags.1.getD [], tags.2⟩

/-- The dataset-discovery pass of `_discover_luns` over one remote
enumeration. -/
def discoverDatasets (remote : List RemoteDatasetM) : List DfmDatasetM :=
  remote.filterMap (fun d => if datasetIncluded d then some (toDiscovered d) else none)

/-- Python single-character `str.replace`. -/
def replChar (a b : Char) (s : Str) : Str :=
  s.map (fun c => if c = a then b else c)

/-- Model of `NetAppISCSIDriver._dataset_name`: spaces and hyphens become
underscores; a falsy (absent or empty) volume type adds no suffix. -/
def datasetName (project : Str) (ssType : Option Str) : Str :=
  let p := replChar '-' '_' (replChar ' ' '_' project)
  let base := chars "OpenStack_" ++ p
  match ssType with
  | none => base
  | some t =>
    if t = [] then base
    else base ++ '_' :: replChar '-' '_' (replChar ' ' '_' t)

/-- The remote DFM calls issued by an edit transaction. -/
inductive DfmCall
  | editBegin
  | provisionMember
  | removeMember
  | editCommit (assumeConfirmation : Bool)
  | editRollback
deriving DecidableEq

/-- Behaviour of the remote server during one edit transaction: whether the
mutating call and the commit call succeed (`false` = the call raises). -/
structure EditOutcome where
  mutateOk : Bool
  commitOk : Bool
deriving DecidableEq

/-- Result of an edit transaction: committed, or the wrapped
`ProvisioningError` (`NovaException`) raised by the `except` branch. -/
inductive TxnResult
  | committed
  | provisioningError
deriving DecidableEq

/-- The `DatasetEditBegin` / try-mutate-commit / except-rollback structure
shared by `_provision` and `_remove_destroy`: the calls issued, and the
outcome. -/
def editTransaction (mutateCall : DfmCall) (b : EditOutcome) : List DfmCall × TxnResult :=
  if b.mutateOk then
    if b.commitOk then
      ([.editBegin, mutateCall, .editCommit true], .committed)
    else
      ([.editBegin, mutateCall, .editCommit true, .editRollback], .provisioningError)
  else
    ([.editBegin, mutateCall, .editRollback], .provisioningError)

/-- The edit transaction of `_provision` (`DatasetProvisionMember`). -/
def provisionEditTxn (b : EditOutcome) : List DfmCall × TxnResult :=
  editTransaction .provisionMember b

/-- The edit transaction of `_remove_destroy` (`DatasetRemoveMember` with
`Destroy=True`). -/
def removeDestroyEditTxn (b : EditOutcome) : List DfmCall × TxnResult :=
  editTransaction .removeMember b

/-- Result of `_remove_destroy`: the driver state afterwards, the outcome
(`none` models the `NotFound` raised by the lookup), and the edit calls
issued. -/
structure RemoveResult7 where
  state : DriverState
  outcome : Option TxnResult
  trace : List DfmCall
deriving DecidableEq

/-- Model of `NetAppISCSIDriver._remove_destroy` (the body of `delete_volume`): look
the LUN up (which may populate the fast index), run the remove-and-destroy
edit transaction, and leave the local cache otherwise untouched. -/
def removeDestroy7 (s : DriverState) (name project : Str) (b : EditOutcome) :
    RemoveResult7 :=
  let r := lookupLunForVolume s name project
  match r.lunFound with
  | none => ⟨r.state, none, []⟩
  | some _ =>
    let t := removeDestroyEditTxn b
    ⟨r.state, some t.2, t.1⟩

/-! ## NetApp C-mode driver model (`NetAppCmodeISCSIDriver`) -/

/-- Model of `CmLocation`: cluster and vserver names. -/
structure CmLocationM where
  cluster : Str
  vserver : Str
deriving DecidableEq

/-- Model of `CmLun`: location and path. -/
structure CmLunM where
  location : CmLocationM
  path : Str
deriving DecidableEq

/-- Local state of `NetAppCmodeISCSIDriver`: `self.luns` and
`self.lun_table`. -/
structure CmDriverState where
  luns : List CmLunM
  lunTable : List (Str × CmLunM)
deriving DecidableEq

/-- Dict lookup on the C-mode `lun_table`. -/
def cmTableFind (t : List (Str × CmLunM)) (k : Str) : Option CmLunM :=
  match t.find? (fun p => decide (p.1 = k)) with
  | some p => some p.2
  | none => none

/-- Dict `pop`: remove the binding for `k`. -/
def cmTableErase (t : List (Str × CmLunM)) (k : Str) : List (Str × CmLunM) :=
  t.filter (fun p => decide (p.1 ≠ k))

/-- Result of the C-mode linear scan: either the loop raises `TypeError` or
it falls through with no match. -/
inductive CmScanResult
  | typeError
  | noMatch
deriving DecidableEq

/-- Model of the scan loop of `NetAppCmodeISCSIDriver._lookup_lun_for_volume`:
on the first cached LUN whose path ends with `'/' + name` the source
evaluates `lun.location['cluster']`, but every cached LUN's `location` is a
`CmLocation` (the only constructor site is `_create_lun`) and `CmLocation`
defines no `__getitem__`, so the subscript raises `TypeError` before any
comparison — the requested location is never consulted and the scan can
never return a LUN.  If no cached LUN's path matches the suffix, the loop
falls through and the caller raises `NotFound`. -/
def cmScanLuns (luns : List CmLunM) (name : Str) : CmScanResult :=
  match luns with
  | [] => .noMatch
  | lun :: rest =>
    if endsWithS lun.path ('/' :: name) then .typeError
    else cmScanLuns rest name

/-- Outcome of a C-mode lookup: `found` is served from the fast index,
`typeError` models the `TypeError` raised inside the scan on a path-suffix
match, and `notFound` models the `NovaException` raised after a scan with no
path match. -/
inductive CmLookupOutcome
  | found (lun : CmLunM)
  | typeError
  | notFound
deriving DecidableEq

/-- Result of a C-mode lookup. -/
structure CmLookupResult where
  outcome : CmLookupOutcome
  state : CmDriverState
  scans : Nat
deriving DecidableEq

/-- Model of `NetAppCmodeISCSIDriver._lookup_lun_for_volume`: fast index
first, then one linear scan, which never returns a LUN (it raises `TypeError`
on the first path-suffix match and `NotFound` otherwise); the state is never
modified. -/
def cmLookupLunForVolume (s : CmDriverState) (name : Str) (_location : CmLocationM) :
    CmLookupResult :=
  match cmTableFind s.lunTable name with
  | some lun => ⟨.found lun, s, 0⟩
  | none =>
    match cmScanLuns s.luns name with
    | .typeError => ⟨.typeError, s, 1⟩
    | .noMatch => ⟨.notFound, s, 1⟩

/-- Python `path.split('/')`. -/
def splitSlash : Str → List Str
  | [] => [[]]
  | c :: rest =>
    let r := splitSlash rest
    if c = '/' then [] :: r
    else
      match r with
      | [] => [[c]]
      | s :: ss => (c :: s) :: ss

/-- Result of `_extract_cm_volume_from_path`: the returned element, the
declared `CM volume not found` error, or the `IndexError` from
`path_elements[1]` on a too-short list. -/
inductive ExtractResult
  | ok (v : Str)
  | cmVolumeNotFound
  | indexError
deriving DecidableEq

/-- Model of `NetAppCmodeISCSIDriver._extract_cm_volume_from_path`:
`path_elements[1]` is accessed before any length guard, so a path with no
slash hits an `IndexError` before the declared error can be raised. -/
def extractCmVolumeFromPath (path : Str) : ExtractResult :=
  let es := splitSlash path
  match es.get? 1 with
  | none => .indexError
  | some e1 =>
    if e1 = chars "vol" ∧ 4 ≤ es.length then
      match es.get? 2 with
      | some e2 => .ok e2
      | none => .indexError
    else if 3 ≤ es.length then .ok e1
    else .cmVolumeNotFound

/-- Outcome of `_remove_destroy_lun`: the lookup may raise `NotFound` or the
scan's `TypeError`, the path extraction may raise, the remove workflow may
fail, `lun_table.pop` may raise `KeyError`, `luns.remove` may raise
`ValueError`, or everything succeeds. -/
inductive CmRemoveOutcome
  | notFound
  | lookupTypeError
  | extractFailed
  | destroyFailed
  | popKeyError
  | removeValueError
  | success
deriving DecidableEq

/-- Result of `_remove_destroy_lun`. -/
structure CmRemoveResult where
  state : CmDriverState
  outcome : CmRemoveOutcome
deriving DecidableEq

/-- Model of `NetAppCmodeISCSIDriver._remove_destroy_lun`: look up the LUN, extract
its volume name, run the remove workflow (`destroyOk` says whether the remote
workflow succeeds), then `lun_table.pop(name)` and `luns.remove(lun)`. -/
def cmRemoveDestroyLun (s : CmDriverState) (name : Str) (location : CmLocationM)
    (destroyOk : Bool) : CmRemoveResult :=
  match (cmLookupLunForVolume s name location).outcome with
  | .notFound => ⟨s, .notFound⟩
  | .typeError => ⟨s, .lookupTypeError⟩
  | .found lun =>
    match extractCmVolumeFromPath lun.path with
    | .indexError => ⟨s, .extractFailed⟩
    | .cmVolumeNotFound => ⟨s, .extractFailed⟩
    | .ok _ =>
      if destroyOk then
        match cmTableFind s.lunTable name with
        | none => ⟨s, .popKeyError⟩
        | some _ =>
          if lun ∈ s.luns then
            ⟨⟨s.luns.erase lun, cmTableErase s.lunTable name⟩, .success⟩
          else
            ⟨⟨s.luns, cmTableErase s.lunTable name⟩, .removeValueError⟩
      else ⟨s, .destroyFailed⟩

/-! ## Initiator mapping model (`_ensure_initiator_mapped`)

The remote filer state visible to the driver: its igroups and its
LUN-to-igroup mappings.  The filer assigns the lowest available LUN number on
a map request (per the `_map_initiator` docstring).
-/

/-- One igroup on the filer. -/
structure IgroupM where
  name : Str
  gtype : Str
  osType : Str
  initiators : List Str
deriving DecidableEq

/-- One LUN-to-igroup mapping on the filer. -/
structure MappingM where
  lunpath : Str
  igroup : Str
  lunNum : Nat
deriving DecidableEq

/-- Remote filer state. -/
structure FilerState where
  igroups : List IgroupM
  mappings : List MappingM
deriving DecidableEq

/-- The scan of `_find_igroup_for_initiator`: first iscsi/linux igroup whose
name starts with `openstack-` and which contains the initiator. -/
def findIgroupScan (initiatorName : Str) : List IgroupM → Option Str
  | [] => none
  | g :: rest =>
    if ¬ (g.gtype = chars "iscsi" ∧ g.osType = chars "linux") then
      findIgroupScan initiatorName rest
    else if ¬ startsWithS g.name (chars "openstack-") then
      findIgroupScan initiatorName rest
    else if initiatorName ∈ g.initiators then some g.name
    else findIgroupScan initiatorName rest

/-- Model of `_find_igroup_for_initiator`. -/
def findIgroupForInitiator (fs : FilerState) (initiatorName : Str) : Option Str :=
  findIgroupScan initiatorName fs.igroups

/-- The igroup created by `_create_igroup`:
`openstack-${initiator_name}`, iscsi, linux, single member. -/
def newIgroup (initiatorName : Str) : IgroupM :=
  ⟨chars "openstack-" ++ initiatorName, chars "iscsi", chars "linux", [initiatorName]⟩

/-- Model of `_get_lun_mappping`: the LUN number currently mapped for the given path
and igroup, if any. -/
def getLunMapping (fs : FilerState) (path g : Str) : Option Nat :=
  match fs.mappings.find? (fun m => decide (m.lunpath = path ∧ m.igroup = g)) with
  | some m => some m.lunNum
  | none => none

/-- First candidate number not in `l`, trying `cand, cand+1, ...` for `fuel`
steps. -/
def mexAux (l : List Nat) : Nat → Nat → Nat
  | 0, cand => cand
  | fuel + 1, cand => if cand ∈ l then mexAux l fuel (cand + 1) else cand

/-- The lowest LUN number not yet used by the igroup (the filer chooses the
lowest available number on `lun-map`). -/
def lowestAvailableLunNum (ms : List MappingM) (g : Str) : Nat :=
  let used := (ms.filter (fun m => decide (m.igroup = g))).map (fun m => m.lunNum)
  mexAux used (used.length + 1) 0

/-- Result of `_ensure_initiator_mapped`: the LUN number returned, the filer
state afterwards, and how many `lun-map` requests were issued. -/
structure EnsureMappedResult where
  lunNum : Nat
  state : FilerState
  mapRequests : Nat
deriving DecidableEq

/-- Model of `NetAppISCSIDriver._ensure_initiator_mapped`: prepend `/vol/`, resolve or
create the igroup, return the existing mapping's number if mapped, otherwise
issue one map request. -/
def ensureInitiatorMapped (fs : FilerState) (lunpath0 initiatorName : Str) :
    EnsureMappedResult :=
  let lunpath := chars "/vol/" ++ lunpath0
  let resolved :=
    match findIgroupForInitiator fs initiatorName with
    | some g => (g, fs)
    | none => (chars "openstack-" ++ initiatorName,
               { fs with igroups := fs.igroups ++ [newIgroup initiatorName] })
  match getLunMapping resolved.2 lunpath resolved.1 with
  | some n => ⟨n, resolved.2, 0⟩
  | none =>
    let n := lowestAvailableLunNum resolved.2.mappings resolved.1
    ⟨n, { resolved.2 with mappings := ⟨lunpath, resolved.1, n⟩ :: resolved.2.mappings }, 1⟩

/-! ## Concrete fixtures used by witnesses and counterexamples -/

/-- A discovered dataset for project `p1`. -/
def dsP1 : DfmDatasetM := ⟨1, chars "OpenStack_p1", chars "p1", none⟩

/-- A discovered LUN for volume `vol-1` in `dsP1`. -/
def lunVol1 : DfmLunM := ⟨dsP1, chars "netapp1:/vol/vol1/qtree1/vol-1", 7⟩

/-- A 7-mode driver state holding `lunVol1` with an empty fast index. -/
def state0 : DriverState := ⟨[lunVol1], []⟩

/-- A C-mode location. -/
def cmLoc1 : CmLocationM := ⟨chars "cluster1", chars "vserver1"⟩

/-- A C-mode LUN for volume `vol-1`. -/
def cmLunVol1 : CmLunM := ⟨cmLoc1, chars "/vol/vol1/vol-1"⟩

/-- A C-mode driver state holding `cmLunVol1` with an empty fast index. -/
def cmState0 : CmDriverState := ⟨[cmLunVol1], []⟩

/-- A C-mode driver state holding `cmLunVol1` in both the LUN list and the
fast index (as `_create_lun` leaves it). -/
def cmState1 : CmDriverState := ⟨[cmLunVol1], [(chars "vol-1", cmLunVol1)]⟩

/-- A remote dataset carrying only the project tag, not the volume-type
tag. -/
def dsNoType : RemoteDatasetM :=
  ⟨3, chars "OpenStack_p2", some [⟨chars "OpenStackProject", chars "p2"⟩]⟩

/-! ## Theorems -/

theorem glanceCallAux_attempts_le (o : Nat → AttemptOutcome) :
    ∀ retries attempt, attemptsOf (glanceCallAux o retries attempt) ≤ attempt + retries + 1 := by
  intro retries
  induction retries with
  | zero =>
    intro attempt
    rw [glanceCallAux]
    cases o attempt <;> simp [attemptsOf]
  | succ n ih =>
    intro attempt
    rw [glanceCallAux]
    cases o attempt <;> simp [attemptsOf]
    calc attemptsOf (glanceCallAux o n (attempt + 1)) ≤ attempt + 1 + n + 1 :=
          ih (attempt + 1)
      _ ≤ attempt + (n + 1) + 1 := by omega

theorem glanceCallAux_all_connFail (o : Nat → AttemptOutcome) :
    ∀ retries attempt,
      (∀ i, attempt ≤ i → i ≤ attempt + retries → ∃ r, o i = .connFail r) →
      ∃ r, o (attempt + retries) = .connFail r ∧
        glanceCallAux o retries attempt = .connectionFailed r (attempt + retries + 1) := by
  intro retries
  induction retries with
  | zero =>
    intro attempt h
    obtain ⟨r, hr⟩ := h attempt (le_refl _) (by omega)
    exact ⟨r, by simpa using hr, by rw [glanceCallAux]; simp [hr]⟩
  | succ n ih =>
    intro attempt h
    obtain ⟨r0, hr0⟩ := h attempt (le_refl _) (by omega)
    obtain ⟨r, hr, hres⟩ := ih (attempt + 1) (fun i h1 h2 => h i (by omega) (by omega))
    refine ⟨r, by rw [show attempt + (n + 1) = attempt + 1 + n by omega]; exact hr, ?_⟩
    rw [glanceCallAux, hr0]
    rw [show attempt + (n + 1) + 1 = attempt + 1 + n + 1 by omega]
    exact hres

theorem glanceCallAux_success (o : Nat → AttemptOutcome) :
    ∀ retries attempt k v, attempt ≤ k → k ≤ attempt + retries →
      (∀ i, attempt ≤ i → i < k → ∃ r, o i = .connFail r) →
      o k = .success v →
      glanceCallAux o retries attempt = .ok v (k + 1) := by
  intro retries
  induction retries with
  | zero =>
    intro attempt k v h1 h2 _ hk
    have : k = attempt := by omega
    subst this
    rw [glanceCallAux, hk]
  | succ n ih =>
    intro attempt k v h1 h2 hconn hk
    by_cases heq : k = attempt
    · subst heq
      rw [glanceCallAux, hk]
    · obtain ⟨r0, hr0⟩ := hconn attempt (le_refl _) (by omega)
      rw [glanceCallAux, hr0]
      exact ih (attempt + 1) k v (by omega) (by omega)
        (fun i hi1 hi2 => hconn i (by omega) hi2) hk

theorem glanceCallAux_otherFail (o : Nat → AttemptOutcome) :
    ∀ retries attempt k e, attempt ≤ k → k ≤ attempt + retries →
      (∀ i, attempt ≤ i → i < k → ∃ r, o i = .connFail r) →
      o k = .otherFail e →
      glanceCallAux o retries attempt = .err e (k + 1) := by
  intro retries
  induction retries with
  | zero =>
    intro attempt k e h1 h2 _ hk
    have : k = attempt := by omega
    subst this
    rw [glanceCallAux, hk]
  | succ n ih =>
    intro attempt k e h1 h2 hconn hk
    by_cases heq : k = attempt
    · subst heq
      rw [glanceCallAux, hk]
    · obtain ⟨r0, hr0⟩ := hconn attempt (le_refl _) (by omega)
      rw [glanceCallAux, hr0]
      exact ih (attempt + 1) k e (by omega) (by omega)
        (fun i hi1 hi2 => hconn i (by omega) hi2) hk

/-- C1: with retry budget `N` the wrapper makes at most `N + 1` attempts; if
every attempt fails with a connection-level error, exactly `N + 1` attempts
are made and the call fails with `ConnectionFailed` carrying the last
failure's reason; if attempt index `k` (0-based, so the `k + 1`-st attempt,
`k + 1 ≤ N + 1`) is the first non-connection-failing one and it succeeds, the
call returns its value with exactly `k + 1` attempts made; a non-connection
failure at a reached attempt propagates immediately with no further
attempt. -/
theorem C1_retry_contract (N : Nat) (o : Nat → AttemptOutcome) :
    attemptsOf (glanceCall o N) ≤ N + 1
    ∧ ((∀ i, i ≤ N → ∃ r, o i = .connFail r) →
        ∃ r, o N = .connFail r ∧ glanceCall o N = .connectionFailed r (N + 1))
    ∧ (∀ k v, k ≤ N → (∀ i, i < k → ∃ r, o i = .connFail r) →
        o k = .success v → glanceCall o N = .ok v (k + 1))
    ∧ (∀ k e, k ≤ N → (∀ i, i < k → ∃ r, o i = .connFail r) →
        o k = .otherFail e → glanceCall o N = .err e (k + 1)) := by
  refine ⟨?_, ?_, ?_, ?_⟩
  · simpa using glanceCallAux_attempts_le o N 0
  · intro h
    simpa using glanceCallAux_all_connFail o N 0 (fun i h1 h2 => h i (by omega))
  · intro k v hk hconn hs
    exact glanceCallAux_success o N 0 k v (by omega) (by omega)
      (fun i _ hi => hconn i hi) hs
  · intro k e hk hconn hs
    exact glanceCallAux_otherFail o N 0 k e (by omega) (by omega)
      (fun i _ hi => hconn i hi) hs

/-- Witness for C1 at a concrete oracle: budget 1, first attempt a connection
failure, second attempt a success, so the call returns with 2 attempts. -/
theorem C1_retry_contract_witness :
    glanceCall (fun i => if i = 0 then .connFail (chars "refused") else .success 7) 1
      = .ok 7 2 :=
  (C1_retry_contract 1 (fun i => if i = 0 then .connFail (chars "refused") else .success 7)).2.2.1
    1 7 (by decide)
    (fun i hi => ⟨chars "refused", by interval_cases i; decide⟩)
    (by decide)

theorem parseScalarBody_escape (s : Str) :
    ∀ rest, parseScalarBody (escapeS s ++ '"' :: rest) = some (s, rest) := by
  induction s with
  | nil =>
    intro rest
    rw [show escapeS [] ++ '"' :: rest = '"' :: rest from rfl]
    rw [parseScalarBody.eq_def]
    simp
  | cons c cs ih =>
    intro rest
    by_cases hc : c = '\\' ∨ c = '"'
    · simp only [escapeS, escChar, if_pos hc, List.cons_append, List.append_assoc,
        List.nil_append]
      rw [parseScalarBody.eq_def]
      simp [ih]
    · push_neg at hc
      simp only [escapeS, escChar, if_neg (show ¬ (c = '\\' ∨ c = '"') by tauto),
        List.cons_append, List.nil_append]
      rw [parseScalarBody.eq_def]
      simp [ih, hc.1, hc.2]

theorem parseScalar_serialize (s : Str) (rest : Str) :
    parseScalar (serializeScalar s ++ rest) = some (s, rest) := by
  have h : serializeScalar s ++ rest = '"' :: (escapeS s ++ '"' :: rest) := by
    simp [serializeScalar]
  rw [h, parseScalar]
  exact parseScalarBody_escape s rest

theorem parseEntry_serialize (p : Str × Str) (rest : Str) :
    parseEntry (serializeEntry p ++ rest) = some (p, rest) := by
  have h : serializeEntry p ++ rest
      = serializeScalar p.1 ++ (':' :: ' ' :: (serializeScalar p.2 ++ rest)) := by
    simp [serializeEntry]
  rw [h, parseEntry]
  simp [parseScalar_serialize]

theorem serializeScalar_head (s : Str) : ∃ t, serializeScalar s = '"' :: t :=
  ⟨_, rfl⟩

theorem parseEntriesRest_serialize (ps : FlatRecord) :
    ∀ fuel rest, ps.length ≤ fuel →
      parseEntriesRest fuel (serializeEntriesRest ps ++ '}' :: rest) = some (ps, rest) := by
  induction ps with
  | nil =>
    intro fuel rest _
    rw [show serializeEntriesRest [] ++ '}' :: rest = '}' :: rest from rfl]
    rw [parseEntriesRest.eq_def]
    simp
  | cons p ps ih =>
    intro fuel rest h
    match fuel with
    | 0 => simp at h
    | fuel' + 1 =>
      have h' : ps.length ≤ fuel' := by simpa using h
      have hshape : serializeEntriesRest (p :: ps) ++ '}' :: rest
          = ',' :: ' ' :: (serializeEntry p ++ (serializeEntriesRest ps ++ '}' :: rest)) := by
        simp [serializeEntriesRest]
      rw [hshape, parseEntriesRest.eq_def]
      simp [parseEntry_serialize, ih fuel' rest h']

theorem parseRecord_serializeRecord (r : FlatRecord) :
    ∀ fuel rest, r.length ≤ fuel + 1 →
      parseRecord fuel (serializeRecord r ++ rest) = some (r, rest) := by
  cases r with
  | nil =>
    intro fuel rest _
    rw [show serializeRecord [] ++ rest = '{' :: '}' :: rest from rfl]
    rw [parseRecord.eq_def]
    simp
  | cons p ps =>
    intro fuel rest h
    have h' : ps.length ≤ fuel := by simpa using h
    obtain ⟨t, ht⟩ := serializeScalar_head p.1
    have hshape : serializeRecord (p :: ps) ++ rest
        = '{' :: (serializeEntry p ++ (serializeEntriesRest ps ++ '}' :: rest)) := by
      simp [serializeRecord]
    have hshape2 : serializeEntry p ++ (serializeEntriesRest ps ++ '}' :: rest)
        = '"' :: (t ++ ':' :: ' ' :: serializeScalar p.2 ++ (serializeEntriesRest ps ++ '}' :: rest)) := by
      simp [serializeEntry, ht]
    rw [hshape, parseRecord.eq_def]
    simp only [hshape2]
    have hq : ¬ ('"' : Char) = '}' := by decide
    simp only [if_neg hq]
    rw [← hshape2, parseEntry_serialize]
    simp [parseEntriesRest_serialize ps fuel rest h']

theorem parseRecordsRest_serialize (rs : List FlatRecord) (rfuel : Nat)
    (hr : ∀ r ∈ rs, r.length ≤ rfuel + 1) :
    ∀ fuel rest, rs.length ≤ fuel →
      parseRecordsRest rfuel fuel (serializeRecordsRest rs ++ ']' :: rest)
        = some (rs, rest) := by
  induction rs with
  | nil =>
    intro fuel rest _
    rw [show serializeRecordsRest [] ++ ']' :: rest = ']' :: rest from rfl]
    rw [parseRecordsRest.eq_def]
    simp
  | cons r rs ih =>
    intro fuel rest h
    match fuel with
    | 0 => simp at h
    | fuel' + 1 =>
      have h' : rs.length ≤ fuel' := by simpa using h
      have hshape : serializeRecordsRest (r :: rs) ++ ']' :: rest
          = ',' :: ' ' :: (serializeRecord r ++ (serializeRecordsRest rs ++ ']' :: rest)) := by
        simp [serializeRecordsRest]
      rw [hshape, parseRecordsRest.eq_def]
      have hrr : r.length ≤ rfuel + 1 := hr r (by simp)
      simp [parseRecord_serializeRecord r rfuel _ hrr,
        ih (fun x hx => hr x (by simp [hx])) fuel' rest h']

theorem serializeRecord_head (r : FlatRecord) : ∃ t, serializeRecord r = '{' :: t :=
  ⟨_, rfl⟩

theorem parseRecordsAux_serialize (rs : List FlatRecord) (fuel : Nat) (rest : Str)
    (hlen : rs.length ≤ fuel) (hr : ∀ r ∈ rs, r.length ≤ fuel + 1) :
    parseRecordsAux fuel (serializeRecords rs ++ rest) = some (rs, rest) := by
  cases rs with
  | nil =>
    rw [show serializeRecords [] ++ rest = '[' :: ']' :: rest from rfl]
    rw [parseRecordsAux.eq_def]
    simp
  | cons r rs =>
    have hshape : serializeRecords (r :: rs) ++ rest
        = '[' :: (serializeRecord r ++ (serializeRecordsRest rs ++ ']' :: rest)) := by
      simp [serializeRecords]
    obtain ⟨t, ht⟩ := serializeRecord_head r
    rw [hshape, parseRecordsAux.eq_def]
    simp only [ht, List.cons_append]
    have hb : ¬ ('{' : Char) = ']' := by decide
    simp only [if_neg hb]
    rw [← List.cons_append, ← ht, parseRecord_serializeRecord r fuel _ (hr r (by simp))]
    simp [parseRecordsRest_serialize rs fuel (fun x hx => hr x (by simp [hx])) fuel rest
      (by simpa using Nat.le_of_succ_le hlen)]

theorem length_serializeEntriesRest (ps : FlatRecord) :
    ps.length ≤ (serializeEntriesRest ps).length := by
  induction ps with
  | nil => simp [serializeEntriesRest]
  | cons p ps ih => simp [serializeEntriesRest]; omega

theorem length_serializeRecord (r : FlatRecord) :
    r.length + 2 ≤ (serializeRecord r).length := by
  cases r with
  | nil => simp [serializeRecord]
  | cons p ps =>
    have := length_serializeEntriesRest ps
    simp [serializeRecord, serializeEntry, serializeScalar]
    omega

theorem length_serializeRecordsRest (rs : List FlatRecord) :
    rs.length ≤ (serializeRecordsRest rs).length := by
  induction rs with
  | nil => simp [serializeRecordsRest]
  | cons r rs ih => simp [serializeRecordsRest]; omega

theorem length_mem_serializeRecordsRest (rs : List FlatRecord) (r : FlatRecord)
    (h : r ∈ rs) : (serializeRecord r).length ≤ (serializeRecordsRest rs).length := by
  induction rs with
  | nil => simp at h
  | cons a rs ih =>
    rcases List.mem_cons.mp h with h1 | h2
    · subst h1; simp [serializeRecordsRest]; omega
    · have := ih h2; simp [serializeRecordsRest]; omega

theorem length_serializeRecords_ge_count (rs : List FlatRecord) :
    rs.length ≤ (serializeRecords rs).length := by
  cases rs with
  | nil => simp [serializeRecords]
  | cons r rs =>
    have := length_serializeRecordsRest rs
    simp [serializeRecords]
    omega

theorem length_serializeRecords_ge_mem (rs : List FlatRecord) (r : FlatRecord)
    (h : r ∈ rs) : r.length ≤ (serializeRecords rs).length := by
  cases rs with
  | nil => simp at h
  | cons a tl =>
    have hrec := length_serializeRecord r
    rcases List.mem_cons.mp h with h1 | h2
    · subst h1; simp [serializeRecords]; omega
    · have := length_mem_serializeRecordsRest tl r h2
      simp [serializeRecords]; omega

theorem parseRecords_serializeRecords (rs : List FlatRecord) :
    parseRecords (serializeRecords rs) = some rs := by
  rw [parseRecords]
  have h := parseRecordsAux_serialize rs (serializeRecords rs).length []
    (length_serializeRecords_ge_count rs)
    (fun r hr => Nat.le_succ_of_le (length_serializeRecords_ge_mem rs r hr))
  simp only [List.append_nil] at h
  rw [h]

theorem decodeVal_encodeVal (k : Str) (v : PropValue)
    (h : recognizedKey k = true → ∃ rs, v = PropValue.records rs) :
    decodeVal k (encodeVal k v) = v := by
  by_cases hk : recognizedKey k
  · obtain ⟨rs, rfl⟩ := h hk
    simp [encodeVal, decodeVal, hk, parseRecords_serializeRecords]
  · simp only [Bool.not_eq_true] at hk
    simp [encodeVal, decodeVal, hk]

/-- C2: for every properties mapping whose recognized keys (`mappings` and
`block_device_mapping`) hold sequences of flat scalar-valued records,
`decode (encode props) = props`; `encode` maps each recognized key's record
sequence to its canonical serialization (a deterministic string in the
records' stable key order); and every other key passes through both `encode`
and `decode` unchanged. -/
theorem C2_codec_roundtrip (props : Props)
    (h : ∀ p ∈ props, recognizedKey p.1 = true → ∃ rs, p.2 = PropValue.records rs) :
    decodeProps (encodeProps props) = props
    ∧ (∀ k rs, recognizedKey k = true →
        encodeVal k (PropValue.records rs) = PropValue.str (serializeRecords rs))
    ∧ (∀ k v, recognizedKey k = false → encodeVal k v = v ∧ decodeVal k v = v) := by
  refine ⟨?_, ?_, ?_⟩
  · induction props with
    | nil => rfl
    | cons p ps ih =>
      have hp := h p (by simp)
      have htail := ih (fun q hq => h q (by simp [hq]))
      simp only [encodeProps, decodeProps, List.map_cons, List.map_map] at htail ⊢
      rw [decodeVal_encodeVal p.1 p.2 hp]
      exact congrArg (fun l => (p.1, p.2) :: l) htail
  · intro k rs hk
    simp [encodeVal, hk]
  · intro k v hk
    constructor <;> simp [encodeVal, decodeVal, hk]

/-- Witness for C2 at a concrete properties mapping containing one
unrecognized key and one recognized key holding two flat records. -/
theorem C2_codec_roundtrip_witness :
    (∀ p ∈ ([(chars "prop1", PropValue.str (chars "propvalue1")),
        (chars "mappings",
          PropValue.records [[(chars "virtual", chars "aaa"), (chars "device", chars "bbb")]])] :
          Props),
      recognizedKey p.1 = true → ∃ rs, p.2 = PropValue.records rs)
    ∧ decodeProps (encodeProps
        [(chars "prop1", PropValue.str (chars "propvalue1")),
         (chars "mappings",
          PropValue.records [[(chars "virtual", chars "aaa"), (chars "device", chars "bbb")]])])
      = [(chars "prop1", PropValue.str (chars "propvalue1")),
         (chars "mappings",
          PropValue.records [[(chars "virtual", chars "aaa"), (chars "device", chars "bbb")]])] := by
  have h : ∀ p ∈ ([(chars "prop1", PropValue.str (chars "propvalue1")),
        (chars "mappings",
          PropValue.records [[(chars "virtual", chars "aaa"), (chars "device", chars "bbb")]])] :
          Props),
      recognizedKey p.1 = true → ∃ rs, p.2 = PropValue.records rs := by
    intro p hp hrec
    rcases List.mem_cons.mp hp with rfl | hp2
    · exact absurd hrec (by decide)
    · rcases List.mem_singleton.mp hp2 with rfl
      exact ⟨_, rfl⟩
  exact ⟨h, (C2_codec_roundtrip _ h).1⟩

/-- C3 counterexample: with a remote behaviour where the mutating call
succeeds but the commit call raises, the provisioning edit transaction issues
both the commit and the rollback — contradicting the claim that on success of
the mutating attempt commit is issued and rollback is not, and that exactly
one of commit or rollback is issued. -/
theorem C3_counterexample :
    (EditOutcome.mk true false).mutateOk = true
    ∧ (provisionEditTxn ⟨true, false⟩).1.count (DfmCall.editCommit true) = 1
    ∧ (provisionEditTxn ⟨true, false⟩).1.count DfmCall.editRollback = 1
    ∧ (provisionEditTxn ⟨true, false⟩).2 = TxnResult.provisioningError := by
  decide

/-- C3 (amended): in both edit transactions the lock is acquired first and at
least one of commit/rollback is issued afterwards, so the lock is released on
every path; if the mutating call and the commit both succeed, commit with
auto-confirmation is issued and rollback is not; if the mutating call raises,
rollback is issued, commit is not, and the wrapped `ProvisioningError` is
raised; if the commit itself raises, the commit has already been issued,
rollback is issued as well, and the wrapped `ProvisioningError` is raised. -/
theorem C3_edit_transaction (b : EditOutcome) :
    (provisionEditTxn b).1.head? = some DfmCall.editBegin
    ∧ (removeDestroyEditTxn b).1.head? = some DfmCall.editBegin
    ∧ (b.mutateOk = true → b.commitOk = true →
        provisionEditTxn b
          = ([DfmCall.editBegin, DfmCall.provisionMember, DfmCall.editCommit true],
             TxnResult.committed)
        ∧ removeDestroyEditTxn b
          = ([DfmCall.editBegin, DfmCall.removeMember, DfmCall.editCommit true],
             TxnResult.committed))
    ∧ (b.mutateOk = false →
        provisionEditTxn b
          = ([DfmCall.editBegin, DfmCall.provisionMember, DfmCall.editRollback],
             TxnResult.provisioningError)
        ∧ removeDestroyEditTxn b
          = ([DfmCall.editBegin, DfmCall.removeMember, DfmCall.editRollback],
             TxnResult.provisioningError))
    ∧ (b.mutateOk = true → b.commitOk = false →
        provisionEditTxn b
          = ([DfmCall.editBegin, DfmCall.provisionMember, DfmCall.editCommit true,
              DfmCall.editRollback], TxnResult.provisioningError)
        ∧ removeDestroyEditTxn b
          = ([DfmCall.editBegin, DfmCall.removeMember, DfmCall.editCommit true,
              DfmCall.editRollback], TxnResult.provisioningError))
    ∧ 1 ≤ (provisionEditTxn b).1.count (DfmCall.editCommit true)
          + (provisionEditTxn b).1.count DfmCall.editRollback
    ∧ 1 ≤ (removeDestroyEditTxn b).1.count (DfmCall.editCommit true)
          + (removeDestroyEditTxn b).1.count DfmCall.editRollback := by
  obtain ⟨m, c⟩ := b
  cases m <;> cases c <;> decide

/-- Witness for C3 at the behaviour where the mutating call raises: rollback
is issued, commit is not, and the wrapped error is raised. -/
theorem C3_edit_transaction_witness :
    provisionEditTxn ⟨false, true⟩
      = ([DfmCall.editBegin, DfmCall.provisionMember, DfmCall.editRollback],
         TxnResult.provisioningError) :=
  ((C3_edit_transaction ⟨false, true⟩).2.2.2.1 rfl).1

theorem scanLuns_spec (name project : Str) :
    ∀ luns lun, scanLuns luns name project = some lun →
      lun.dataset.project = project ∧ endsWithS lun.lunpath ('/' :: name) = true
        ∧ lun ∈ luns := by
  intro luns
  induction luns with
  | nil => intro lun h; simp [scanLuns] at h
  | cons a rest ih =>
    intro lun h
    rw [scanLuns] at h
    by_cases hp : a.dataset.project ≠ project
    · simp only [if_pos hp] at h
      obtain ⟨h1, h2, h3⟩ := ih lun h
      exact ⟨h1, h2, by simp [h3]⟩
    · simp only [if_neg hp] at h
      have hpeq : a.dataset.project = project := by tauto
      by_cases he : endsWithS a.lunpath ('/' :: name) = true
      · simp only [if_pos he] at h
        obtain rfl : a = lun := by simpa using h
        exact ⟨hpeq, he, by simp⟩
      · simp only [if_neg he] at h
        obtain ⟨h1, h2, h3⟩ := ih lun h
        exact ⟨h1, h2, by simp [h3]⟩

theorem cmScanLuns_noMatch_iff (name : Str) :
    ∀ luns, cmScanLuns luns name = CmScanResult.noMatch ↔
      ∀ lun ∈ luns, endsWithS lun.path ('/' :: name) = false := by
  intro luns
  induction luns with
  | nil => simp [cmScanLuns]
  | cons a rest ih =>
    rw [cmScanLuns]
    by_cases he : endsWithS a.path ('/' :: name) = true
    · simp [he]
    · simp only [Bool.not_eq_true] at he
      simp [he, ih]

theorem cmScanLuns_typeError_iff (name : Str) (luns : List CmLunM) :
    cmScanLuns luns name = CmScanResult.typeError ↔
      ∃ lun ∈ luns, endsWithS lun.path ('/' :: name) = true := by
  induction luns with
  | nil => simp [cmScanLuns]
  | cons a rest ih =>
    rw [cmScanLuns]
    by_cases he : endsWithS a.path ('/' :: name) = true
    · simp [he]
    · simp only [Bool.not_eq_true] at he
      simp [he, ih]

/-- C4 counterexample: the fast index is keyed by the volume name only.
After a lookup of `vol-1` for project `p1` populates the index, a lookup of
`vol-1` for a different project `p2` is served from the index and returns the
cached LUN whose dataset belongs to `p1` — the cache returns a `Lun` that does
not match the pair requested. -/
theorem C4_counterexample :
    (lookupLunForVolume
        (lookupLunForVolume
          ⟨[⟨⟨1, chars "OpenStack_p1", chars "p1", none⟩,
             chars "netapp1:/vol/vol1/qtree1/vol-1", 7⟩], []⟩
          (chars "vol-1") (chars "p1")).state
        (chars "vol-1") (chars "p2")).lunFound
      = some ⟨⟨1, chars "OpenStack_p1", chars "p1", none⟩,
              chars "netapp1:/vol/vol1/qtree1/vol-1", 7⟩
    ∧ (⟨⟨1, chars "OpenStack_p1", chars "p1", none⟩,
        chars "netapp1:/vol/vol1/qtree1/vol-1", 7⟩ : DfmLunM).dataset.project
        ≠ chars "p2" := by
  decide

/-- C4 (amended): when the fast index has no entry for the name, a 7-mode
lookup is served by the linear scan and any returned LUN does match the pair
requested: its dataset's project equals the requested project and its path
ends with `'/' + name`.  In the C-mode driver the linear scan never returns a
LUN at all (the first path-suffix match raises `TypeError` from
`lun.location['cluster']`, and otherwise the lookup raises `NotFound`), so on
a fast-index miss the C-mode lookup returns no LUN whatsoever.  A fast-index
hit, in either driver, returns whatever LUN was cached under the name,
without re-checking the project or location. -/
theorem C4_scan_lookup_matches_request :
    (∀ (s : DriverState) (name project : Str) (lun : DfmLunM),
      tableFind s.lunTable name = none →
      (lookupLunForVolume s name project).lunFound = some lun →
      lun.dataset.project = project ∧ endsWithS lun.lunpath ('/' :: name) = true)
    ∧ (∀ (s : CmDriverState) (name : Str) (loc : CmLocationM) (lun : CmLunM),
      cmTableFind s.lunTable name = none →
      (cmLookupLunForVolume s name loc).outcome ≠ CmLookupOutcome.found lun) := by
  constructor
  · intro s name project lun hmiss hfound
    rw [lookupLunForVolume, hmiss] at hfound
    rcases hscan : scanLuns s.discoveredLuns name project with _ | l
    · simp [hscan] at hfound
    · simp only [hscan] at hfound
      have heq : l = lun := by simpa using hfound
      obtain ⟨h1, h2, _⟩ := scanLuns_spec name project s.discoveredLuns l hscan
      rw [heq] at h1 h2
      exact ⟨h1, h2⟩
  · intro s name loc lun hmiss
    rw [cmLookupLunForVolume, hmiss]
    rcases hscan : cmScanLuns s.luns name with _ | _ <;> simp [hscan]

/-- Witness for C4 at a concrete state with an empty fast index: the
scan-served lookup returns a LUN matching the requested pair. -/
theorem C4_scan_lookup_matches_request_witness :
    tableFind state0.lunTable (chars "vol-1") = none
    ∧ (lookupLunForVolume state0 (chars "vol-1") (chars "p1")).lunFound = some lunVol1
    ∧ lunVol1.dataset.project = chars "p1"
    ∧ endsWithS lunVol1.lunpath ('/' :: chars "vol-1") = true :=
  ⟨by decide, by decide,
   C4_scan_lookup_matches_request.1 state0 (chars "vol-1") (chars "p1") lunVol1
     (by decide) (by decide)⟩

/-- C5 counterexample: in the C-mode driver the linear scan never produces a
hit — at a state whose cached LUN's path ends with `'/' + vol-1` and whose
fast index is empty, the lookup of `vol-1` does not return the matching LUN:
the scan raises `TypeError` (from `lun.location['cluster']` on a
non-subscriptable `CmLocation`), the fast index is not populated (the state
is unchanged), and so no second lookup can be served from the index —
contradicting the claim that on a scan hit the index is populated and a
second lookup of the same name is served from it. -/
theorem C5_counterexample :
    cmTableFind cmState0.lunTable (chars "vol-1") = none
    ∧ endsWithS cmLunVol1.path ('/' :: chars "vol-1") = true
    ∧ (cmLookupLunForVolume cmState0 (chars "vol-1") cmLoc1).outcome
        = CmLookupOutcome.typeError
    ∧ (cmLookupLunForVolume cmState0 (chars "vol-1") cmLoc1).scans = 1
    ∧ (cmLookupLunForVolume cmState0 (chars "vol-1") cmLoc1).state = cmState0 := by
  decide

/-- C5 (amended): the fast index is consulted first; on a miss exactly one
linear scan is performed, and no lookup ever modifies the discovered-LUN
list (no re-discovery).  In the 7-mode driver a scan hit populates the fast
index and a second lookup of the same name is served from the index with no
scan, while a scan miss raises `NotFound` leaving the state unchanged.  In
the C-mode driver the scan never returns a LUN: on a fast-index miss the
lookup raises `TypeError` exactly when some cached LUN's path ends with
`'/' + name` and `NotFound` otherwise, in both cases leaving the state (and
so the fast index, populated only at creation) unchanged. -/
theorem C5_lookup_discipline :
    (∀ (s : DriverState) (name project : Str),
      (∀ lun, tableFind s.lunTable name = some lun →
        lookupLunForVolume s name project = ⟨some lun, s, 0⟩)
      ∧ (tableFind s.lunTable name = none →
          (lookupLunForVolume s name project).scans = 1)
      ∧ (∀ lun, tableFind s.lunTable name = none →
          scanLuns s.discoveredLuns name project = some lun →
          lookupLunForVolume s name project
            = ⟨some lun, ⟨s.discoveredLuns, (name, lun) :: s.lunTable⟩, 1⟩
          ∧ lookupLunForVolume ⟨s.discoveredLuns, (name, lun) :: s.lunTable⟩ name project
            = ⟨some lun, ⟨s.discoveredLuns, (name, lun) :: s.lunTable⟩, 0⟩)
      ∧ (tableFind s.lunTable name = none →
          scanLuns s.discoveredLuns name project = none →
          lookupLunForVolume s name project = ⟨none, s, 1⟩)
      ∧ (lookupLunForVolume s name project).state.discoveredLuns = s.discoveredLuns)
    ∧ (∀ (s : CmDriverState) (name : Str) (loc : CmLocationM),
      (∀ lun, cmTableFind s.lunTable name = some lun →
        cmLookupLunForVolume s name loc = ⟨CmLookupOutcome.found lun, s, 0⟩)
      ∧ (cmTableFind s.lunTable name = none →
          (cmLookupLunForVolume s name loc).scans = 1
          ∧ (cmLookupLunForVolume s name loc).state = s)
      ∧ (cmTableFind s.lunTable name = none →
          ((cmLookupLunForVolume s name loc).outcome = CmLookupOutcome.notFound ↔
            ∀ lun ∈ s.luns, endsWithS lun.path ('/' :: name) = false)
          ∧ ((cmLookupLunForVolume s name loc).outcome = CmLookupOutcome.typeError ↔
            ∃ lun ∈ s.luns, endsWithS lun.path ('/' :: name) = true))
      ∧ (cmLookupLunForVolume s name loc).state.luns = s.luns) := by
  constructor
  · intro s name project
    refine ⟨?_, ?_, ?_, ?_, ?_⟩
    · intro lun h
      rw [lookupLunForVolume, h]
    · intro h
      rw [lookupLunForVolume, h]
      rcases hscan : scanLuns s.discoveredLuns name project with _ | l <;> simp [hscan]
    · intro lun h hscan
      constructor
      · rw [lookupLunForVolume, h, hscan]
      · rw [lookupLunForVolume]
        have hfind : tableFind ((name, lun) :: s.lunTable) name = some lun := by
          simp [tableFind]
        rw [hfind]
    · intro h hscan
      rw [lookupLunForVolume, h, hscan]
    · rw [lookupLunForVolume]
      rcases tableFind s.lunTable name with _ | l
      · rcases hscan : scanLuns s.discoveredLuns name project with _ | l <;> simp [hscan]
      · rfl
  · intro s name loc
    refine ⟨?_, ?_, ?_, ?_⟩
    · intro lun h
      rw [cmLookupLunForVolume, h]
    · intro h
      rw [cmLookupLunForVolume, h]
      rcases hscan : cmScanLuns s.luns name with _ | _ <;> simp [hscan]
    · intro h
      rw [cmLookupLunForVolume, h]
      constructor
      · rcases hscan : cmScanLuns s.luns name with _ | _
        · simp only [hscan]
          rw [← cmScanLuns_noMatch_iff name s.luns, hscan]
          simp
        · simp only [hscan]
          rw [← cmScanLuns_noMatch_iff name s.luns, hscan]
          simp
      · rcases hscan : cmScanLuns s.luns name with _ | _
        · simp only [hscan]
          rw [← cmScanLuns_typeError_iff name s.luns, hscan]
          simp
        · simp only [hscan]
          rw [← cmScanLuns_typeError_iff name s.luns, hscan]
          simp
    · rw [cmLookupLunForVolume]
      rcases cmTableFind s.lunTable name with _ | l
      · rcases hscan : cmScanLuns s.luns name with _ | _ <;> simp [hscan]
      · rfl

/-- Witness for C5 at a concrete 7-mode state: the first lookup scans, hits,
and populates the index; the second lookup is served from the index with no
scan. -/
theorem C5_lookup_discipline_witness :
    tableFind state0.lunTable (chars "vol-1") = none
    ∧ scanLuns state0.discoveredLuns (chars "vol-1") (chars "p1") = some lunVol1
    ∧ lookupLunForVolume state0 (chars "vol-1") (chars "p1")
        = ⟨some lunVol1, ⟨state0.discoveredLuns, [(chars "vol-1", lunVol1)]⟩, 1⟩
    ∧ lookupLunForVolume ⟨state0.discoveredLuns, [(chars "vol-1", lunVol1)]⟩
        (chars "vol-1") (chars "p1")
        = ⟨some lunVol1, ⟨state0.discoveredLuns, [(chars "vol-1", lunVol1)]⟩, 0⟩ :=
  ⟨by decide, by decide,
   ((C5_lookup_discipline.1 state0 (chars "vol-1") (chars "p1")).2.2.1 lunVol1
      (by decide) (by decide)).1,
   ((C5_lookup_discipline.1 state0 (chars "vol-1") (chars "p1")).2.2.1 lunVol1
      (by decide) (by decide)).2⟩

theorem truthyOpt_iff (o : Option Str) :
    truthyOpt o = true ↔ ∃ v, o = some v ∧ v ≠ [] := by
  cases o <;> simp [truthyOpt]

/-- C6 counterexample: a remote dataset whose name has the `OpenStack_`
prefix and whose metadata carries only the project tag — no storage-class
tag — is included by the discovery pass, contradicting the claim that a
dataset missing either tag is excluded. -/
theorem C6_counterexample :
    datasetIncluded dsNoType = true
    ∧ (extractTags (dsNoType.datasetMetadata.getD [])).2 = none := by
  decide

/-- C6 (amended): the discovery pass includes a remote dataset if and only if
its name starts with the `OpenStack_` prefix, its metadata is present and
non-empty, and the project tag is extracted with a non-empty value.  The
storage-class tag is not required; when absent the dataset is included with
no type.  The discovered list is exactly the filtered remote list mapped to
local records. -/
theorem C6_discovery_filter :
    (∀ d : RemoteDatasetM,
      datasetIncluded d = true ↔
        startsWithS d.datasetName (chars "OpenStack_") = true
        ∧ ∃ fields, d.datasetMetadata = some fields ∧ fields ≠ []
            ∧ ∃ v, (extractTags fields).1 = some v ∧ v ≠ [])
    ∧ (∀ remote : List RemoteDatasetM,
        discoverDatasets remote = (remote.filter datasetIncluded).map toDiscovered) := by
  constructor
  · intro d
    constructor
    · intro h
      rw [datasetIncluded, Bool.and_eq_true] at h
      obtain ⟨h1, h2⟩ := h
      refine ⟨h1, ?_⟩
      rcases hm : d.datasetMetadata with _ | fields
      · rw [hm] at h2; simp at h2
      · rw [hm] at h2
        by_cases hf : fields = []
        · simp [hf] at h2
        · simp only [if_neg hf] at h2
          exact ⟨fields, rfl, hf, (truthyOpt_iff _).mp h2⟩
    · rintro ⟨h1, fields, hm, hf, v, hv, hvne⟩
      rw [datasetIncluded, Bool.and_eq_true, hm]
      exact ⟨h1, by simp [if_neg hf, (truthyOpt_iff _).mpr ⟨v, hv, hvne⟩]⟩
  · intro remote
    induction remote with
    | nil => rfl
    | cons d rest ih =>
      by_cases hd : datasetIncluded d = true
      · simp [discoverDatasets, List.filter_cons, hd] at ih ⊢
        exact ih
      · simp only [Bool.not_eq_true] at hd
        simp [discoverDatasets, List.filter_cons, hd] at ih ⊢
        exact ih

/-- Witness for C6 at a concrete remote dataset carrying both tags: it is
included. -/
theorem C6_discovery_filter_witness :
    datasetIncluded
      ⟨4, chars "OpenStack_q",
       some [⟨chars "OpenStackProject", chars "q"⟩,
             ⟨chars "OpenStackVolType", chars "gold"⟩]⟩ = true :=
  (C6_discovery_filter.1 _).mpr
    ⟨by decide, [⟨chars "OpenStackProject", chars "q"⟩,
                 ⟨chars "OpenStackVolType", chars "gold"⟩], rfl, by decide,
     chars "q", by decide, by decide⟩

theorem cmTableFind_erase (t : List (Str × CmLunM)) (k : Str) :
    cmTableFind (cmTableErase t k) k = none := by
  induction t with
  | nil => rfl
  | cons p rest ih =>
    by_cases hp : p.1 = k
    · simpa [cmTableErase, List.filter_cons, hp] using ih
    · simpa [cmTableErase, cmTableFind, List.filter_cons, List.find?_cons, hp] using ih

theorem lookup_discoveredLuns_eq (s : DriverState) (name project : Str) :
    (lookupLunForVolume s name project).state.discoveredLuns = s.discoveredLuns := by
  rw [lookupLunForVolume]
  rcases tableFind s.lunTable name with _ | l
  · rcases hscan : scanLuns s.discoveredLuns name project with _ | l <;> simp [hscan]
  · rfl

theorem lookup_found_table (s : DriverState) (name project : Str) (lun : DfmLunM)
    (h : (lookupLunForVolume s name project).lunFound = some lun) :
    tableFind (lookupLunForVolume s name project).state.lunTable name = some lun := by
  rcases ht : tableFind s.lunTable name with _ | l
  · rcases hscan : scanLuns s.discoveredLuns name project with _ | l
    · simp [lookupLunForVolume, ht, hscan] at h
    · have h2 : l = lun := by simpa [lookupLunForVolume, ht, hscan] using h
      subst h2
      have hstate : (lookupLunForVolume s name project).state.lunTable
          = (name, l) :: s.lunTable := by
        simp [lookupLunForVolume, ht, hscan]
      rw [hstate]
      simp [tableFind]
  · have h2 : l = lun := by simpa [lookupLunForVolume, ht] using h
    subst h2
    simp [lookupLunForVolume, ht]

/-- C7 counterexample: in the 7-mode driver a successful deletion of `vol-1`
leaves the Discovery Cache untouched — the deleted LUN is still among the
discovered LUNs, the fast index now holds an entry for the deleted name
(populated by the lookup inside the deletion), and a subsequent lookup of the
name returns the deleted LUN. -/
theorem C7_counterexample :
    (removeDestroy7 state0 (chars "vol-1") (chars "p1") ⟨true, true⟩).outcome
      = some TxnResult.committed
    ∧ tableFind
        (removeDestroy7 state0 (chars "vol-1") (chars "p1") ⟨true, true⟩).state.lunTable
        (chars "vol-1") = some lunVol1
    ∧ lunVol1 ∈
        (removeDestroy7 state0 (chars "vol-1") (chars "p1") ⟨true, true⟩).state.discoveredLuns
    ∧ (lookupLunForVolume
        (removeDestroy7 state0 (chars "vol-1") (chars "p1") ⟨true, true⟩).state
        (chars "vol-1") (chars "p1")).lunFound = some lunVol1 := by
  decide

/-- C7 (amended): in the C-mode driver a successful deletion removes both the
fast-index entry for the name and the cached LUN record (the looked-up LUN is
erased from the LUN list, so when it occurred once it is absent afterwards).
In the 7-mode driver deletion leaves the discovered-LUN list unchanged and
the fast index holds an entry for the deleted name, so a subsequent lookup of
that name still returns the deleted LUN. -/
theorem C7_delete_cache_behaviour :
    (∀ (s : CmDriverState) (name : Str) (loc : CmLocationM) (dOk : Bool),
      (cmRemoveDestroyLun s name loc dOk).outcome = CmRemoveOutcome.success →
      cmTableFind (cmRemoveDestroyLun s name loc dOk).state.lunTable name = none
      ∧ ∀ lun, (cmLookupLunForVolume s name loc).outcome = CmLookupOutcome.found lun →
          (cmRemoveDestroyLun s name loc dOk).state.luns = s.luns.erase lun
          ∧ (s.luns.count lun = 1 →
              lun ∉ (cmRemoveDestroyLun s name loc dOk).state.luns))
    ∧ (∀ (s : DriverState) (name project : Str) (b : EditOutcome),
      (removeDestroy7 s name project b).outcome ≠ none →
      (removeDestroy7 s name project b).state.discoveredLuns = s.discoveredLuns
      ∧ ∃ lun,
          tableFind (removeDestroy7 s name project b).state.lunTable name = some lun
          ∧ (lookupLunForVolume (removeDestroy7 s name project b).state name
              project).lunFound = some lun) := by
  constructor
  · intro s name loc dOk h
    rcases hl : (cmLookupLunForVolume s name loc).outcome with lun0 | _ | _
    · rcases he : extractCmVolumeFromPath lun0.path with v | _ | _
      · cases dOk
        · simp [cmRemoveDestroyLun, hl, he] at h
        · rcases ht : cmTableFind s.lunTable name with _ | l0
          · simp [cmRemoveDestroyLun, hl, he, ht] at h
          · by_cases hm : lun0 ∈ s.luns
            · constructor
              · simp only [cmRemoveDestroyLun, hl, he, ht, if_pos hm]
                exact cmTableFind_erase s.lunTable name
              · intro lun hlun
                obtain rfl : lun0 = lun := CmLookupOutcome.found.inj hlun
                constructor
                · simp [cmRemoveDestroyLun, hl, he, ht, hm]
                · intro hcount
                  have hstate : (cmRemoveDestroyLun s name loc true).state.luns
                      = s.luns.erase lun0 := by
                    simp [cmRemoveDestroyLun, hl, he, ht, hm]
                  rw [hstate, ← List.count_pos_iff, List.count_erase_self, hcount]
                  simp
            · simp [cmRemoveDestroyLun, hl, he, ht, hm] at h
      · simp [cmRemoveDestroyLun, hl, he] at h
      · simp [cmRemoveDestroyLun, hl, he] at h
    · simp [cmRemoveDestroyLun, hl] at h
    · simp [cmRemoveDestroyLun, hl] at h
  · intro s name project b h
    rcases hl : (lookupLunForVolume s name project).lunFound with _ | lun
    · simp [removeDestroy7, hl] at h
    · have hstate : (removeDestroy7 s name project b).state
          = (lookupLunForVolume s name project).state := by
        simp [removeDestroy7, hl]
      rw [hstate]
      refine ⟨lookup_discoveredLuns_eq s name project, lun,
        lookup_found_table s name project lun hl, ?_⟩
      rw [lookupLunForVolume, lookup_found_table s name project lun hl]

/-- Witness for C7 at a concrete C-mode state where creation left the LUN in
both the list and the fast index: after a successful deletion both entries
are gone. -/
theorem C7_delete_cache_behaviour_witness :
    (cmRemoveDestroyLun cmState1 (chars "vol-1") cmLoc1 true).outcome
      = CmRemoveOutcome.success
    ∧ cmTableFind
        (cmRemoveDestroyLun cmState1 (chars "vol-1") cmLoc1 true).state.lunTable
        (chars "vol-1") = none :=
  ⟨by decide,
   (C7_delete_cache_behaviour.1 cmState1 (chars "vol-1") cmLoc1 true (by decide)).1⟩

theorem startsWithS_append_self (p x : Str) : startsWithS (p ++ x) p = true := by
  rw [startsWithS, List.isPrefixOf_iff_prefix]
  exact List.prefix_append p x

theorem findIgroupScan_append (i : Str) (l1 l2 : List IgroupM) :
    findIgroupScan i (l1 ++ l2)
      = match findIgroupScan i l1 with
        | some g => some g
        | none => findIgroupScan i l2 := by
  induction l1 with
  | nil => simp [findIgroupScan]
  | cons g rest ih =>
    rw [List.cons_append, findIgroupScan, findIgroupScan]
    by_cases h1 : ¬ (g.gtype = chars "iscsi" ∧ g.osType = chars "linux")
    · simp only [if_pos h1]; exact ih
    · simp only [if_neg h1]
      by_cases h2 : ¬ startsWithS g.name (chars "openstack-") = true
      · simp only [if_pos h2]; exact ih
      · simp only [if_neg h2]
        by_cases h3 : i ∈ g.initiators
        · simp only [if_pos h3]
        · simp only [if_neg h3]; exact ih

theorem getLunMapping_eq_none (fs : FilerState) (path g : Str)
    (h : ∀ m ∈ fs.mappings, m.lunpath ≠ path) :
    getLunMapping fs path g = none := by
  rw [getLunMapping]
  have hfind : fs.mappings.find? (fun m => decide (m.lunpath = path ∧ m.igroup = g))
      = none := by
    rw [List.find?_eq_none]
    intro m hm
    simp only [decide_eq_true_eq, not_and]
    intro hp
    exact absurd hp (h m hm)
  rw [hfind]

theorem newIgroup_found (i : Str) :
    findIgroupScan i [newIgroup i] = some (chars "openstack-" ++ i) := by
  rw [findIgroupScan]
  have h1 : ¬ ¬ ((newIgroup i).gtype = chars "iscsi"
      ∧ (newIgroup i).osType = chars "linux") := by
    simp [newIgroup]
  rw [if_neg h1]
  have h2 : ¬ ¬ startsWithS (newIgroup i).name (chars "openstack-") = true := by
    simp [newIgroup, startsWithS_append_self]
  rw [if_neg h2]
  have h3 : i ∈ (newIgroup i).initiators := by simp [newIgroup]
  rw [if_pos h3]
  rfl

/-- C8: starting from any filer state in which the LUN path is not mapped to
any igroup, calling `_ensure_initiator_mapped` twice with identical host, LUN
path, and initiator issues exactly one `lun-map` request in total and returns
the same LUN number both times: the first call (creating the igroup if
absent) maps the LUN with one map request, and the second call finds the
existing mapping and returns its LUN number with no map request. -/
theorem C8_ensure_mapped_idempotent (fs : FilerState) (lunpath0 initiatorName : Str)
    (h : ∀ m ∈ fs.mappings, m.lunpath ≠ chars "/vol/" ++ lunpath0) :
    (ensureInitiatorMapped fs lunpath0 initiatorName).mapRequests = 1
    ∧ (ensureInitiatorMapped (ensureInitiatorMapped fs lunpath0 initiatorName).state
        lunpath0 initiatorName).mapRequests = 0
    ∧ (ensureInitiatorMapped (ensureInitiatorMapped fs lunpath0 initiatorName).state
        lunpath0 initiatorName).lunNum
      = (ensureInitiatorMapped fs lunpath0 initiatorName).lunNum
    ∧ (ensureInitiatorMapped fs lunpath0 initiatorName).mapRequests
        + (ensureInitiatorMapped (ensureInitiatorMapped fs lunpath0 initiatorName).state
            lunpath0 initiatorName).mapRequests = 1 := by
  rcases hf : findIgroupForInitiator fs initiatorName with _ | g
  · -- igroup absent: the first call creates it
    have hmap1 : getLunMapping
        { fs with igroups := fs.igroups ++ [newIgroup initiatorName] }
        (chars "/vol/" ++ lunpath0) (chars "openstack-" ++ initiatorName) = none :=
      getLunMapping_eq_none _ _ _ h
    have hr1 : ensureInitiatorMapped fs lunpath0 initiatorName
        = ⟨lowestAvailableLunNum fs.mappings (chars "openstack-" ++ initiatorName),
           ⟨fs.igroups ++ [newIgroup initiatorName],
            ⟨chars "/vol/" ++ lunpath0, chars "openstack-" ++ initiatorName,
             lowestAvailableLunNum fs.mappings (chars "openstack-" ++ initiatorName)⟩
              :: fs.mappings⟩, 1⟩ := by
      rw [ensureInitiatorMapped]
      simp only [hf, hmap1]
    have hf2 : findIgroupForInitiator
        (ensureInitiatorMapped fs lunpath0 initiatorName).state initiatorName
        = some (chars "openstack-" ++ initiatorName) := by
      rw [hr1, findIgroupForInitiator, findIgroupScan_append]
      rw [findIgroupForInitiator] at hf
      rw [hf, newIgroup_found]
    have hmap2 : getLunMapping (ensureInitiatorMapped fs lunpath0 initiatorName).state
        (chars "/vol/" ++ lunpath0) (chars "openstack-" ++ initiatorName)
        = some (lowestAvailableLunNum fs.mappings (chars "openstack-" ++ initiatorName)) := by
      rw [hr1, getLunMapping]
      simp [List.find?_cons]
    have hr2 : ensureInitiatorMapped (ensureInitiatorMapped fs lunpath0 initiatorName).state
        lunpath0 initiatorName
        = ⟨lowestAvailableLunNum fs.mappings (chars "openstack-" ++ initiatorName),
           (ensureInitiatorMapped fs lunpath0 initiatorName).state, 0⟩ := by
      rw [ensureInitiatorMapped]
      simp only [hf2, hmap2]
    rw [hr2, hr1]
    exact ⟨rfl, rfl, rfl, rfl⟩
  · -- igroup already present
    have hmap1 : getLunMapping fs (chars "/vol/" ++ lunpath0) g = none :=
      getLunMapping_eq_none _ _ _ h
    have hr1 : ensureInitiatorMapped fs lunpath0 initiatorName
        = ⟨lowestAvailableLunNum fs.mappings g,
           ⟨fs.igroups,
            ⟨chars "/vol/" ++ lunpath0, g, lowestAvailableLunNum fs.mappings g⟩
              :: fs.mappings⟩, 1⟩ := by
      rw [ensureInitiatorMapped]
      simp only [hf, hmap1]
    have hf2 : findIgroupForInitiator
        (ensureInitiatorMapped fs lunpath0 initiatorName).state initiatorName = some g := by
      rw [hr1]
      rw [findIgroupForInitiator] at hf ⊢
      exact hf
    have hmap2 : getLunMapping (ensureInitiatorMapped fs lunpath0 initiatorName).state
        (chars "/vol/" ++ lunpath0) g = some (lowestAvailableLunNum fs.mappings g) := by
      rw [hr1, getLunMapping]
      simp [List.find?_cons]
    have hr2 : ensureInitiatorMapped (ensureInitiatorMapped fs lunpath0 initiatorName).state
        lunpath0 initiatorName
        = ⟨lowestAvailableLunNum fs.mappings g,
           (ensureInitiatorMapped fs lunpath0 initiatorName).state, 0⟩ := by
      rw [ensureInitiatorMapped]
      simp only [hf2, hmap2]
    rw [hr2, hr1]
    exact ⟨rfl, rfl, rfl, rfl⟩

/-- Witness for C8 at an empty filer state: one map request in total, same
LUN number both times. -/
theorem C8_ensure_mapped_idempotent_witness :
    (∀ m ∈ (⟨[], []⟩ : FilerState).mappings,
        m.lunpath ≠ chars "/vol/" ++ chars "vol1/qtree1/lun1")
    ∧ ((ensureInitiatorMapped ⟨[], []⟩ (chars "vol1/qtree1/lun1")
          (chars "iqn.1993-08.org.debian:01:abc")).mapRequests = 1
      ∧ (ensureInitiatorMapped
          (ensureInitiatorMapped ⟨[], []⟩ (chars "vol1/qtree1/lun1")
            (chars "iqn.1993-08.org.debian:01:abc")).state
          (chars "vol1/qtree1/lun1") (chars "iqn.1993-08.org.debian:01:abc")).mapRequests = 0
      ∧ (ensureInitiatorMapped
          (ensureInitiatorMapped ⟨[], []⟩ (chars "vol1/qtree1/lun1")
            (chars "iqn.1993-08.org.debian:01:abc")).state
          (chars "vol1/qtree1/lun1") (chars "iqn.1993-08.org.debian:01:abc")).lunNum
        = (ensureInitiatorMapped ⟨[], []⟩ (chars "vol1/qtree1/lun1")
            (chars "iqn.1993-08.org.debian:01:abc")).lunNum
      ∧ (ensureInitiatorMapped ⟨[], []⟩ (chars "vol1/qtree1/lun1")
            (chars "iqn.1993-08.org.debian:01:abc")).mapRequests
          + (ensureInitiatorMapped
              (ensureInitiatorMapped ⟨[], []⟩ (chars "vol1/qtree1/lun1")
                (chars "iqn.1993-08.org.debian:01:abc")).state
              (chars "vol1/qtree1/lun1")
              (chars "iqn.1993-08.org.debian:01:abc")).mapRequests = 1) :=
  ⟨by simp, C8_ensure_mapped_idempotent ⟨[], []⟩ (chars "vol1/qtree1/lun1")
      (chars "iqn.1993-08.org.debian:01:abc") (by simp)⟩

/-- C9: the dataset-name derivation is not injective — `proj-1` and `proj_1`
(distinct projects differing only in `-` versus `_`) map to the same dataset
name, and project `proj_X` with no storage class maps to the same dataset
name as project `proj` with storage class `X`, so volumes of distinct
projects or classes resolve to one shared dataset. -/
theorem C9_dataset_name_not_injective :
    datasetName (chars "proj-1") none = datasetName (chars "proj_1") none
    ∧ chars "proj-1" ≠ chars "proj_1"
    ∧ datasetName (chars "proj_X") none = datasetName (chars "proj") (some (chars "X"))
    ∧ (chars "proj_X", (none : Option Str)) ≠ (chars "proj", some (chars "X")) := by
  decide

theorem splitSlash_ne_nil (l : Str) : splitSlash l ≠ [] := by
  cases l with
  | nil => simp [splitSlash]
  | cons c rest =>
    rw [splitSlash]
    by_cases hc : c = '/'
    · simp [hc]
    · simp only [if_neg hc]
      rcases h : splitSlash rest with _ | ⟨s, ss⟩ <;> simp

theorem length_splitSlash (l : Str) :
    (splitSlash l).length = l.count '/' + 1 := by
  induction l with
  | nil => simp [splitSlash]
  | cons c rest ih =>
    rw [splitSlash]
    by_cases hc : c = '/'
    · subst hc
      simp [List.count_cons, ih]
    · simp only [if_neg hc]
      rcases h : splitSlash rest with _ | ⟨s, ss⟩
      · exact absurd h (splitSlash_ne_nil rest)
      · rw [h] at ih
        simp only [List.length_cons] at ih ⊢
        have : (c == '/') = false := by simpa using hc
        simp [List.count_cons, this]
        omega

/-- C10 counterexample: for the path `/vol/x` — which has three
`'/'`-separated elements and starts with `/vol` — the extraction returns the
element `vol` (`path_elements[1]`), not the element after `vol`
(`path_elements[2] = x`), contradicting the claim's characterization of the
returned element. -/
theorem C10_counterexample :
    3 ≤ (splitSlash (chars "/vol/x")).length
    ∧ startsWithS (chars "/vol/x") (chars "/vol") = true
    ∧ extractCmVolumeFromPath (chars "/vol/x") = ExtractResult.ok (chars "vol")
    ∧ (splitSlash (chars "/vol/x")).get? 2 = some (chars "x")
    ∧ chars "vol" ≠ chars "x" := by
  decide

/-- C10 (amended): the extraction is partial — for every path with at least
three `'/'`-separated elements (at least two slashes) it returns an element:
`path_elements[2]` when `path_elements[1] = vol` and there are at least four
elements, otherwise `path_elements[1]`; a path with exactly one slash raises
the declared `CM volume not found` error; and a path containing no `'/'` at
all hits the `path_elements[1]` index access, which fails before the declared
error can be raised. -/
theorem C10_extract_behaviour (path : Str) :
    (path.count '/' = 0 → extractCmVolumeFromPath path = ExtractResult.indexError)
    ∧ (path.count '/' = 1 → extractCmVolumeFromPath path = ExtractResult.cmVolumeNotFound)
    ∧ (2 ≤ path.count '/' →
        ∃ v, extractCmVolumeFromPath path = ExtractResult.ok v
          ∧ (((splitSlash path).get? 1 = some (chars "vol")
                ∧ 4 ≤ (splitSlash path).length
                ∧ (splitSlash path).get? 2 = some v)
             ∨ (¬ ((splitSlash path).get? 1 = some (chars "vol")
                    ∧ 4 ≤ (splitSlash path).length)
                ∧ (splitSlash path).get? 1 = some v))) := by
  have hlen := length_splitSlash path
  refine ⟨?_, ?_, ?_⟩
  · intro h
    rw [h] at hlen
    have h1 : (splitSlash path).get? 1 = none := by
      rw [List.get?_eq_none]
      omega
    rw [extractCmVolumeFromPath, h1]
  · intro h
    rw [h] at hlen
    rcases h1 : (splitSlash path).get? 1 with _ | e1
    · rw [List.get?_eq_none] at h1
      omega
    · rw [extractCmVolumeFromPath, h1]
      dsimp only
      have hc1 : ¬ (e1 = chars "vol" ∧ 4 ≤ (splitSlash path).length) := by
        rintro ⟨_, hh⟩
        omega
      rw [if_neg hc1, if_neg (by omega : ¬ 3 ≤ (splitSlash path).length)]
  · intro h
    rcases h1 : (splitSlash path).get? 1 with _ | e1
    · rw [List.get?_eq_none] at h1
      omega
    · rw [extractCmVolumeFromPath, h1]
      dsimp only
      by_cases hc : e1 = chars "vol" ∧ 4 ≤ (splitSlash path).length
      · rcases h2 : (splitSlash path).get? 2 with _ | e2
        · rw [List.get?_eq_none] at h2
          omega
        · rw [if_pos hc]
          exact ⟨e2, rfl, Or.inl ⟨by rw [hc.1], hc.2, rfl⟩⟩
      · rw [if_neg hc, if_pos (by omega : 3 ≤ (splitSlash path).length)]
        refine ⟨e1, rfl, Or.inr ⟨?_, rfl⟩⟩
        rintro ⟨ha, hb⟩
        exact hc ⟨Option.some.inj ha, hb⟩

/-- Witness for C10 at the concrete path `netapp1:/vol/vol1/lun1` (three
slashes): the extraction returns an element, namely `vol1`. -/
theorem C10_extract_behaviour_witness :
    2 ≤ (chars "netapp1:/vol/vol1/lun1").count '/'
    ∧ ∃ v, extractCmVolumeFromPath (chars "netapp1:/vol/vol1/lun1") = ExtractResult.ok v
        ∧ (((splitSlash (chars "netapp1:/vol/vol1/lun1")).get? 1 = some (chars "vol")
              ∧ 4 ≤ (splitSlash (chars "netapp1:/vol/vol1/lun1")).length
              ∧ (splitSlash (chars "netapp1:/vol/vol1/lun1")).get? 2 = some v)
           ∨ (¬ ((splitSlash (chars "netapp1:/vol/vol1/lun1")).get? 1 = some (chars "vol")
                  ∧ 4 ≤ (splitSlash (chars "netapp1:/vol/vol1/lun1")).length)
              ∧ (splitSlash (chars "netapp1:/vol/vol1/lun1")).get? 1 = some v)) :=
  ⟨by decide, (C10_extract_behaviour (chars "netapp1:/vol/vol1/lun1")).2.2 (by decide)⟩
